import Mathlib

/-!
Shallow embedding of two MatchZoo components and proofs about them:

* `src/matchzoo/generators/point_generator.py` — `PointGenerator`, in
  particular `_get_batch_of_transformed_samples`.
* `src/matchzoo/preprocessor/cdssm_preprocessor.py` — `CDSSMPreprocessor`
  (`fit` and `transform`).  In the repository snapshot this whole file is
  commented out; the definitions below embed the commented class body,
  which is the code the specification describes.

Python dictionaries are embedded as association lists with
insertion-order-preserving overwrite, numpy fancy indexing as an
`Except`-returning selection, and the numpy one-hot write
`batch_y[idx, label] = 1` (including negative-index wrap-around) as
`oneHotWrite`.
-/

namespace MatchZoo

/-- A Python `dict` as an association list.  `dictInsert` models
`d[k] = v`: it overwrites the binding in place when the key is present
(keeping insertion order) and appends otherwise. -/
def dictInsert {V : Type} : List (String × V) → String → V → List (String × V)
  | [], k, v => [(k, v)]
  | (k', v') :: rest, k, v =>
      if k' = k then (k, v) :: rest else (k', v') :: dictInsert rest k v

/-- `d.get(k)`: the value bound to `k`, if any. -/
def dictGet {V : Type} : List (String × V) → String → Option V
  | [], _ => none
  | (k', v') :: rest, k => if k' = k then some v' else dictGet rest k

/-- Number of bindings a dict holds for key `k`. -/
def countKey {V : Type} (d : List (String × V)) (k : String) : Nat :=
  (d.map Prod.fst).count k

/-- Keys of the dict are pairwise distinct (true of every Python dict). -/
def dictNodup {V : Type} (d : List (String × V)) : Prop :=
  (d.map Prod.fst).Nodup

/-- numpy fancy indexing `xs[index_array]`: selects `xs[i]` for each `i`
in order, raising `IndexError` when an index is out of bounds. -/
def npSelect {α : Type} (xs : List α) : List Nat → Except String (List α)
  | [] => .ok []
  | i :: rest =>
    match xs[i]? with
    | some v =>
      match npSelect xs rest with
      | .ok vs => .ok (v :: vs)
      | .error e => .error e
    | none => .error "IndexError"

/-- The task argument of `PointGenerator`
(`point_generator.py`, `isinstance` dispatch at lines 93-104):
`tasks.Ranking` carries `output_dtype` used to cast labels,
`tasks.Classification` carries `num_classes` and an integer-valued
`output_dtype`, and `other` stands for any object of a different class
(`rep` is its `repr`, what `f"{self._task}"` interpolates). -/
inductive GenTask (L δ : Type) where
  | ranking (output_dtype : L → δ)
  | classification (num_classes : Nat) (output_dtype : L → Int)
  | other (rep : String)

/-- A value stored in the `batch_x` dict: the initial empty list, the
synthetic list of `(id_left, id_right)` pairs, or a looked-up feature
column. -/
inductive BatchVal (ID F : Type) where
  | empty
  | ids (pairs : List (ID × ID))
  | feats (vals : List F)
deriving DecidableEq, Repr

/-- The label component of a batch: `None`, the Ranking branch's mapped
labels, or the Classification branch's one-hot matrix (0/1 entries). -/
inductive BatchY (δ : Type) where
  | none
  | ranking (ys : List δ)
  | classification (m : List (List Nat))
deriving DecidableEq, Repr

/-- The state a `PointGenerator` carries into
`_get_batch_of_transformed_samples`: stage, task, the relation columns
(`id_left`, `id_right`, `label` as parallel arrays, as produced by
`_transform_relation`), and the two side tables, each as its declared
feature-column names plus a lookup function embedding
`self._left.loc[ids, column]` / `self._right.loc[ids, column]`. -/
structure GenState (ID L F δ : Type) where
  stage : String
  task : GenTask L δ
  rel_id_left : List ID
  rel_id_right : List ID
  rel_label : List L
  left_columns : List String
  left_loc : ID → String → F
  right_columns : List String
  right_loc : ID → String → F

/-- The numpy write `batch_y[idx, label] = 1` on a fresh zero row of
length `C`: a label in `[0, C)` sets that column, a label in `[-C, 0)`
wraps around to column `C + label`, anything else raises `IndexError`. -/
def oneHotWrite (C : Nat) (label : Int) : Except String (List Nat) :=
  if 0 ≤ label ∧ label < (C : Int) then
    .ok ((List.replicate C 0).set label.toNat 1)
  else if -(C : Int) ≤ label ∧ label < 0 then
    .ok ((List.replicate C 0).set (C - (-label).toNat) 1)
  else
    .error "IndexError"

/-- The Classification branch's loop: one one-hot row per converted
label, in order. -/
def buildOneHot (C : Nat) : List Int → Except String (List (List Nat))
  | [] => .ok []
  | l :: rest =>
    match oneHotWrite C l with
    | .ok row =>
      match buildOneHot C rest with
      | .ok m => .ok (row :: m)
      | .error e => .error e
    | .error e => .error e

/-- The label block of `_get_batch_of_transformed_samples`
(`point_generator.py` lines 92-104).  Outside the `train` stage
`batch_y` stays `None`.  At `train` stage: Ranking maps `output_dtype`
over the **whole** `label` column (`self._relation['label']`, not
indexed by `index_array`); Classification one-hot encodes the labels
selected by `index_array`; any other task raises `ValueError`. -/
def getLabels {ID L F δ : Type} (s : GenState ID L F δ) (index_array : List Nat) :
    Except String (BatchY δ) :=
  if s.stage = "train" then
    match s.task with
    | .ranking f => .ok (.ranking (s.rel_label.map f))
    | .classification C f =>
      match npSelect s.rel_label index_array with
      | .ok ls =>
        match buildOneHot C (ls.map f) with
        | .ok m => .ok (.classification m)
        | .error e => .error e
      | .error e => .error e
    | .other rep =>
      .error (rep ++ " is not a valid task type." ++
        ":class:`Ranking` and :class:`Classification` expected.")
  else .ok .none

/-- The `batch_x` assembly (`point_generator.py` lines 86-90 and
107-115): every declared column plus `"ids"` is initialised to `[]`,
the `(id_left, id_right)` pairs are appended into `"ids"`, then each
left column and each right column is assigned wholesale from the side
tables — later assignments overwrite earlier ones, dict-style. -/
def buildBatchX {ID L F δ : Type} (s : GenState ID L F δ) (idsL idsR : List ID) :
    List (String × BatchVal ID F) :=
  let columns := s.left_columns ++ s.right_columns ++ ["ids"]
  let bx0 := columns.foldl (fun d c => dictInsert d c BatchVal.empty) []
  let bx1 := dictInsert bx0 "ids" (BatchVal.ids (idsL.zip idsR))
  let bx2 := s.left_columns.foldl
    (fun d c => dictInsert d c (BatchVal.feats (idsL.map (fun i => s.left_loc i c)))) bx1
  s.right_columns.foldl
    (fun d c => dictInsert d c (BatchVal.feats (idsR.map (fun i => s.right_loc i c)))) bx2

/-- `PointGenerator._get_batch_of_transformed_samples(index_array)`:
labels are produced first (the `ValueError` for an unknown task and the
Classification `IndexError`s happen there), then `id_left`/`id_right`
are fancy-indexed by `index_array` and `batch_x` is assembled. -/
def getBatch {ID L F δ : Type} (s : GenState ID L F δ) (index_array : List Nat) :
    Except String (List (String × BatchVal ID F) × BatchY δ) :=
  match getLabels s index_array with
  | .error e => .error e
  | .ok lbls =>
    match npSelect s.rel_id_left index_array with
    | .error e => .error e
    | .ok idsL =>
      match npSelect s.rel_id_right index_array with
      | .error e => .error e
      | .ok idsR => .ok (buildBatchX s idsL idsR, lbls)

/-! ### CDSSM preprocessor (`cdssm_preprocessor.py`, commented-out class)

The five stateless process units, the `VocabularyUnit` and the
`segmentation` helper live outside the two excerpted source files, so
they are modelled from the spec; the `fit`/`transform` bodies below
follow the source lines of `cdssm_preprocessor.py` themselves. -/

/-- A raw corpus tuple `(id_left, id_right, text_left, text_right, label)`
as in the class docstring's train inputs. -/
structure RawInput where
  id_left : String
  id_right : String
  text_left : String
  text_right : String
  label : Int
deriving DecidableEq, Repr

/-- Split a character stream at spaces, accumulating the current word. -/
def splitAtSpaces (cur : List Char) : List Char → List (List Char)
  | [] => [cur.reverse]
  | c :: rest =>
    if c = ' ' then cur.reverse :: splitAtSpaces [] rest
    else splitAtSpaces (c :: cur) rest

/-- Modelled from the spec: `TokenizeUnit` — split a raw text into
word tokens (whitespace tokenization). -/
def tokenize (t : String) : List String :=
  ((splitAtSpaces [] t.toList).map String.mk).filter (fun w => w ≠ "")

/-- Modelled from the spec: `LowercaseUnit` — lowercase every token. -/
def lowercase (ts : List String) : List String :=
  ts.map (fun w => String.mk (w.toList.map Char.toLower))

/-- Punctuation characters removed by the punctuation-removal step. -/
def puncChars : List Char := ['.', ',', '!', '?', ';', ':', '(', ')']

/-- Modelled from the spec: `PuncRemovalUnit` — strip punctuation
characters from each token, dropping tokens left empty. -/
def removePunc (ts : List String) : List String :=
  (ts.map (fun w => String.mk (w.toList.filter (fun c => c ∉ puncChars)))).filter
    (fun w => w ≠ "")

/-- A small English stopword list for the stopword-removal step. -/
def stopwords : List String :=
  ["a", "an", "and", "in", "is", "of", "the", "to"]

/-- Modelled from the spec: `StopRemovalUnit` — drop stopword tokens. -/
def removeStop (ts : List String) : List String :=
  ts.filter (fun w => w ∉ stopwords)

/-- All length-3 character windows of a word (its tri-letters). -/
def windows3 : List Char → List String
  | a :: rest =>
    (match rest with
     | b :: c :: _ => [String.mk [a, b, c]]
     | _ => []) ++ windows3 rest
  | [] => []

/-- Modelled from the spec: `NgramLetterUnit` — wrap each token in `#`
markers and emit its character tri-letters. -/
def ngramLetter (ts : List String) : List String :=
  ts.flatMap (fun w => windows3 ('#' :: w.toList ++ ['#']))

/-- The fixed ordered unit chain of `_prepare_stateless_units`, applied
to one piece of text: tokenize → lowercase → remove punctuation →
remove stopwords → character n-grams. -/
def processText (t : String) : List String :=
  ngramLetter (removeStop (removePunc (lowercase (tokenize t))))

/-- First-occurrence deduplication, used to model the vocabulary unit
assigning one index per unique token. -/
def dedupFirst (seen : List String) : List String → List String
  | [] => []
  | x :: rest =>
    if x ∈ seen then dedupFirst seen rest
    else x :: dedupFirst (x :: seen) rest

/-- Pair each token with its index, counting from `n`. -/
def indexFrom (n : Nat) : List String → List (String × Nat)
  | [] => []
  | x :: rest => (x, n) :: indexFrom (n + 1) rest

/-- Modelled from the spec: `VocabularyUnit.fit` — assign each unique
token of the accumulated vocabulary a stable integer index (first
occurrence order, indices from 1, leaving 0 free as in the `+ 1`
dimension bump). -/
def buildTermIndex (vocab : List String) : List (String × Nat) :=
  indexFrom 1 (dedupFirst [] vocab)

/-- The fitted context of `CDSSMPreprocessor`: the only keys `fit` ever
writes are `term_index` and `input_shapes`.  A shape descriptor is a
tuple of optional dimensions (`none` would be an unbounded dimension). -/
structure CDSSMContext where
  term_index : Option (List (String × Nat))
  input_shapes : Option (List (List (Option Nat)))
deriving DecidableEq, Repr

/-- `CDSSMPreprocessor.__init__`: `self._context = {}`. -/
def CDSSMinit : CDSSMContext := { term_index := none, input_shapes := none }

/-- Modelled from the spec: the vocabulary accumulation of `fit` — the
corpus is segmented into its left and right texts and every text is run
through the unit chain, extending one global token list. -/
def vocabOf (inputs : List RawInput) : List String :=
  inputs.foldl (fun acc r => acc ++ processText r.text_left ++ processText r.text_right) []

/-- `CDSSMPreprocessor.fit` (`cdssm_preprocessor.py` lines 78-113):
builds the vocabulary, fits the vocabulary unit, then overwrites
`context['term_index']` with the fitted term index and
`context['input_shapes']` with `[(dim_triletter,), (dim_triletter,)]`
where `dim_triletter = len(term_index) + 1`.  Both keys are assigned
unconditionally, so the previous context does not influence the
result. -/
def CDSSMfit (_s : CDSSMContext) (inputs : List RawInput) : CDSSMContext :=
  let ti := buildTermIndex (vocabOf inputs)
  let dim := ti.length + 1
  { term_index := some ti, input_shapes := some [[some dim], [some dim]] }

/-- `CDSSMPreprocessor.transform` (`cdssm_preprocessor.py` lines
116-129): the body is `pass`, so the call returns `None` and leaves the
fitted context untouched. -/
def CDSSMtransform (s : CDSSMContext) (_inputs : List RawInput) (_stage : String) :
    Option Unit × CDSSMContext :=
  (none, s)

/-- The spec's count of unique tokens produced by the n-gram pipeline
over a corpus. -/
def uniqueTokenCount (inputs : List RawInput) : Nat :=
  (vocabOf inputs).toFinset.card

/-! ### Concrete instances used by the counterexamples and witnesses -/

/-- Whether a fallible computation succeeded. -/
def isOkB {ε α : Type} : Except ε α → Bool
  | .ok _ => true
  | .error _ => false

/-- A two-row Ranking generator at training stage, labels 5 and 7,
identity `output_dtype`. -/
def rankStateC1 : GenState String Int Nat Int :=
  { stage := "train", task := .ranking (fun x => x),
    rel_id_left := ["q0", "q1"], rel_id_right := ["d0", "d1"], rel_label := [5, 7],
    left_columns := ["text_left"], left_loc := fun _ _ => 0,
    right_columns := ["text_right"], right_loc := fun _ _ => 0 }

/-- A generator holding a task of an unrecognized class, at test stage. -/
def otherTaskTestState : GenState String Int Nat Int :=
  { stage := "test", task := .other "CustomTask()",
    rel_id_left := ["q0"], rel_id_right := ["d0"], rel_label := [1],
    left_columns := ["text_left"], left_loc := fun _ _ => 0,
    right_columns := ["text_right"], right_loc := fun _ _ => 0 }

/-- The same unrecognized task, at training stage. -/
def otherTaskTrainState : GenState String Int Nat Int :=
  { stage := "train", task := .other "CustomTask()",
    rel_id_left := ["q0"], rel_id_right := ["d0"], rel_label := [1],
    left_columns := ["text_left"], left_loc := fun _ _ => 0,
    right_columns := ["text_right"], right_loc := fun _ _ => 0 }

/-- The spec's one-line fitting corpus. -/
def corpusBeijing : List RawInput :=
  [{ id_left := "id0", id_right := "id1", text_left := "beijing",
     text_right := "Beijing is capital of China", label := 1 }]

/-- A two-row Classification generator (2 classes, labels 1 and 0) at
training stage. -/
def clsStateW : GenState String Int Nat Int :=
  { stage := "train", task := .classification 2 (fun x => x),
    rel_id_left := ["q0", "q1"], rel_id_right := ["d0", "d1"], rel_label := [1, 0],
    left_columns := ["text_left"], left_loc := fun _ _ => 3,
    right_columns := ["text_right"], right_loc := fun _ _ => 4 }

/-- A two-row Ranking generator at test stage. -/
def idsStateW : GenState String Int Nat Int :=
  { stage := "test", task := .ranking (fun x => x),
    rel_id_left := ["q0", "q1"], rel_id_right := ["d0", "d1"], rel_label := [5, 7],
    left_columns := ["text_left"], left_loc := fun _ _ => 0,
    right_columns := ["text_right"], right_loc := fun _ _ => 0 }

/-- A Classification generator at test stage. -/
def predStateW : GenState String Int Nat Int :=
  { stage := "test", task := .classification 2 (fun x => x),
    rel_id_left := ["q0"], rel_id_right := ["d0"], rel_label := [1],
    left_columns := ["text_left"], left_loc := fun _ _ => 0,
    right_columns := ["text_right"], right_loc := fun _ _ => 0 }

/-- A Classification generator (3 classes) whose single relation row
carries the out-of-range label `-2`. -/
def negStateW : GenState String Int Nat Int :=
  { stage := "train", task := .classification 3 (fun x => x),
    rel_id_left := ["q0"], rel_id_right := ["d0"], rel_label := [-2],
    left_columns := ["text_left"], left_loc := fun _ _ => 0,
    right_columns := ["text_right"], right_loc := fun _ _ => 0 }

/-- A generator whose left and right side tables both declare a feature
column named `"text"`, with distinguishable values (left yields 1,
right yields 2). -/
def dupStateW : GenState String Int Nat Int :=
  { stage := "test", task := .ranking (fun x => x),
    rel_id_left := ["q0"], rel_id_right := ["d0"], rel_label := [5],
    left_columns := ["text"], left_loc := fun _ _ => 1,
    right_columns := ["text"], right_loc := fun _ _ => 2 }

/-! ### Dictionary lemmas -/

theorem dictGet_dictInsert_self {V : Type} (d : List (String × V)) (k : String) (v : V) :
    dictGet (dictInsert d k v) k = some v := by
  induction d with
  | nil => simp [dictInsert, dictGet]
  | cons p rest ih =>
    obtain ⟨k', v'⟩ := p
    by_cases h : k' = k
    · simp [dictInsert, h, dictGet]
    · simp [dictInsert, h, dictGet, ih]

theorem dictGet_dictInsert_ne {V : Type} (d : List (String × V)) (k k' : String) (v : V)
    (h : k ≠ k') : dictGet (dictInsert d k v) k' = dictGet d k' := by
  induction d with
  | nil => simp [dictInsert, dictGet, h]
  | cons p rest ih =>
    obtain ⟨a, b⟩ := p
    by_cases ha : a = k
    · subst ha
      simp [dictInsert, dictGet, h]
    · simp [dictInsert, dictGet, ha, ih]

theorem dictGet_foldl_not_mem {V : Type} (cols : List String) (f : String → V)
    (d0 : List (String × V)) (k : String) (h : k ∉ cols) :
    dictGet (cols.foldl (fun d c => dictInsert d c (f c)) d0) k = dictGet d0 k := by
  induction cols generalizing d0 with
  | nil => rfl
  | cons c rest ih =>
    simp only [List.mem_cons, not_or] at h
    obtain ⟨h1, h2⟩ := h
    simp only [List.foldl_cons]
    rw [ih _ h2, dictGet_dictInsert_ne _ _ _ _ (fun e => h1 e.symm)]

theorem dictGet_foldl_mem {V : Type} (cols : List String) (f : String → V)
    (d0 : List (String × V)) (k : String) (h : k ∈ cols) :
    dictGet (cols.foldl (fun d c => dictInsert d c (f c)) d0) k = some (f k) := by
  induction cols generalizing d0 with
  | nil => cases h
  | cons c rest ih =>
    simp only [List.foldl_cons]
    by_cases hr : k ∈ rest
    · exact ih _ hr
    · have hkc : k = c := by
        rcases List.mem_cons.mp h with h1 | h2
        · exact h1
        · exact absurd h2 hr
      subst hkc
      rw [dictGet_foldl_not_mem _ _ _ _ hr, dictGet_dictInsert_self]

theorem mem_keys_dictInsert {V : Type} (d : List (String × V)) (k : String) (v : V)
    (a : String) : a ∈ (dictInsert d k v).map Prod.fst ↔ a ∈ d.map Prod.fst ∨ a = k := by
  induction d with
  | nil => simp [dictInsert]
  | cons p rest ih =>
    obtain ⟨k', v'⟩ := p
    by_cases h : k' = k
    · subst h
      have e1 : dictInsert ((k', v') :: rest) k' v = (k', v) :: rest := by
        simp [dictInsert]
      rw [e1]
      simp only [List.map_cons, List.mem_cons]
      show a = k' ∨ a ∈ rest.map Prod.fst ↔ (a = k' ∨ a ∈ rest.map Prod.fst) ∨ a = k'
      tauto
    · have e1 : dictInsert ((k', v') :: rest) k v = (k', v') :: dictInsert rest k v := by
        simp [dictInsert, h]
      rw [e1]
      simp only [List.map_cons, List.mem_cons]
      rw [ih]
      show a = k' ∨ (a ∈ rest.map Prod.fst ∨ a = k) ↔ (a = k' ∨ a ∈ rest.map Prod.fst) ∨ a = k
      tauto

theorem dictNodup_dictInsert {V : Type} (d : List (String × V)) (k : String) (v : V)
    (h : dictNodup d) : dictNodup (dictInsert d k v) := by
  induction d with
  | nil =>
    show (List.map Prod.fst [(k, v)]).Nodup
    simp
  | cons p rest ih =>
    obtain ⟨k', v'⟩ := p
    have h' : (k' :: rest.map Prod.fst).Nodup := h
    obtain ⟨h1, h2⟩ := List.nodup_cons.mp h'
    by_cases hk : k' = k
    · subst hk
      have e1 : dictInsert ((k', v') :: rest) k' v = (k', v) :: rest := by
        simp [dictInsert]
      show ((dictInsert ((k', v') :: rest) k' v).map Prod.fst).Nodup
      rw [e1, List.map_cons]
      exact List.nodup_cons.mpr ⟨h1, h2⟩
    · have e1 : dictInsert ((k', v') :: rest) k v = (k', v') :: dictInsert rest k v := by
        simp [dictInsert, hk]
      show ((dictInsert ((k', v') :: rest) k v).map Prod.fst).Nodup
      rw [e1, List.map_cons]
      refine List.nodup_cons.mpr ⟨fun hmem => ?_, ih h2⟩
      rcases (mem_keys_dictInsert rest k v k').mp hmem with hm | he
      · exact h1 hm
      · exact hk he

theorem dictNodup_foldl {V : Type} (cols : List String) (f : String → V)
    (d0 : List (String × V)) (h : dictNodup d0) :
    dictNodup (cols.foldl (fun d c => dictInsert d c (f c)) d0) := by
  induction cols generalizing d0 with
  | nil => exact h
  | cons c rest ih => exact ih _ (dictNodup_dictInsert _ _ _ h)

theorem mem_keys_of_dictGet {V : Type} (d : List (String × V)) (k : String) (v : V)
    (h : dictGet d k = some v) : k ∈ d.map Prod.fst := by
  induction d with
  | nil => simp [dictGet] at h
  | cons p rest ih =>
    obtain ⟨k', v'⟩ := p
    by_cases hk : k' = k
    · subst hk
      simp
    · simp only [dictGet, if_neg hk] at h
      simp [ih h]

theorem countKey_eq_one_of_dictGet {V : Type} (d : List (String × V)) (k : String) (v : V)
    (hn : dictNodup d) (h : dictGet d k = some v) : countKey d k = 1 :=
  List.count_eq_one_of_mem hn (mem_keys_of_dictGet d k v h)

/-! ### Selection and one-hot lemmas -/

theorem npSelect_length {α : Type} (xs : List α) (ia : List Nat) (ls : List α)
    (h : npSelect xs ia = .ok ls) : ls.length = ia.length := by
  induction ia generalizing ls with
  | nil =>
    simp only [npSelect, Except.ok.injEq] at h
    subst h
    rfl
  | cons i rest ih =>
    cases hx : xs[i]? with
    | none => simp [npSelect, hx] at h
    | some v =>
      cases hr : npSelect xs rest with
      | error e => simp [npSelect, hx, hr] at h
      | ok vs =>
        simp only [npSelect, hx, hr, Except.ok.injEq] at h
        subst h
        simp [ih vs hr]

theorem npSelect_getElem? {α : Type} (xs : List α) (ia : List Nat) (ls : List α)
    (h : npSelect xs ia = .ok ls) :
    ∀ (j i : Nat), ia[j]? = some i → ls[j]? = xs[i]? := by
  induction ia generalizing ls with
  | nil => intro j i hj; simp at hj
  | cons i0 rest ih =>
    intro j i hj
    cases hx : xs[i0]? with
    | none => simp [npSelect, hx] at h
    | some v =>
      cases hr : npSelect xs rest with
      | error e => simp [npSelect, hx, hr] at h
      | ok vs =>
        simp only [npSelect, hx, hr, Except.ok.injEq] at h
        subst h
        cases j with
        | zero =>
          simp only [List.getElem?_cons_zero, Option.some.injEq] at hj
          subst hj
          simp [hx]
        | succ j' =>
          rw [List.getElem?_cons_succ] at hj
          rw [List.getElem?_cons_succ]
          exact ih vs hr j' i hj

theorem npSelect_mem {α : Type} (xs : List α) (ia : List Nat) (ls : List α)
    (h : npSelect xs ia = .ok ls) : ∀ l ∈ ls, l ∈ xs := by
  induction ia generalizing ls with
  | nil =>
    simp only [npSelect, Except.ok.injEq] at h
    subst h
    intro l hl
    cases hl
  | cons i rest ih =>
    cases hx : xs[i]? with
    | none => simp [npSelect, hx] at h
    | some v =>
      cases hr : npSelect xs rest with
      | error e => simp [npSelect, hx, hr] at h
      | ok vs =>
        simp only [npSelect, hx, hr, Except.ok.injEq] at h
        subst h
        intro l hl
        rcases List.mem_cons.mp hl with h1 | h2
        · subst h1
          obtain ⟨hn, he⟩ := List.getElem?_eq_some.mp hx
          exact he ▸ List.getElem_mem hn
        · exact ih vs hr l h2

theorem npSelect_ok_of_lt {α : Type} (xs : List α) (ia : List Nat)
    (h : ∀ i ∈ ia, i < xs.length) : ∃ ls, npSelect xs ia = .ok ls := by
  induction ia with
  | nil => exact ⟨[], rfl⟩
  | cons i rest ih =>
    obtain ⟨ls, hls⟩ := ih (fun j hj => h j (List.mem_cons_of_mem _ hj))
    have hi : i < xs.length := h i (List.mem_cons_self _ _)
    exact ⟨xs[i] :: ls, by simp [npSelect, List.getElem?_eq_getElem hi, hls]⟩

theorem buildOneHot_eq_ok (C : Nat) (ls : List Int) (g : Int → List Nat)
    (h : ∀ x ∈ ls, oneHotWrite C x = .ok (g x)) :
    buildOneHot C ls = .ok (ls.map g) := by
  induction ls with
  | nil => rfl
  | cons x rest ih =>
    have hx := h x (List.mem_cons_self _ _)
    have hr := ih (fun y hy => h y (List.mem_cons_of_mem _ hy))
    simp [buildOneHot, hx, hr]

theorem oneHotWrite_of_nonneg (C : Nat) (x : Int) (h0 : 0 ≤ x) (h1 : x < (C : Int)) :
    oneHotWrite C x = .ok ((List.replicate C 0).set x.toNat 1) := by
  unfold oneHotWrite
  rw [if_pos ⟨h0, h1⟩]

theorem oneHotWrite_of_neg (C : Nat) (x : Int) (h0 : -(C : Int) ≤ x) (h1 : x < 0) :
    oneHotWrite C x = .ok ((List.replicate C 0).set (C - (-x).toNat) 1) := by
  have hno : ¬ (0 ≤ x ∧ x < (C : Int)) := fun hc => absurd h1 (not_lt.mpr hc.1)
  unfold oneHotWrite
  rw [if_neg hno, if_pos ⟨h0, h1⟩]

theorem sum_replicate_set (C c : Nat) (h : c < C) :
    ((List.replicate C (0 : Nat)).set c 1).sum = 1 := by
  induction C generalizing c with
  | zero => exact absurd h (Nat.not_lt_zero c)
  | succ C ih =>
    cases c with
    | zero => simp [List.replicate_succ]
    | succ c' =>
      simp only [List.replicate_succ, List.set]
      simp [ih c' (Nat.lt_of_succ_lt_succ h)]

theorem zip_getElem?_some {α β : Type} (as : List α) (bs : List β) (j : Nat) (a : α) (b : β)
    (ha : as[j]? = some a) (hb : bs[j]? = some b) :
    (as.zip bs)[j]? = some (a, b) := by
  induction as generalizing bs j with
  | nil => simp at ha
  | cons x rest ih =>
    cases bs with
    | nil => simp at hb
    | cons y brest =>
      cases j with
      | zero =>
        simp only [List.getElem?_cons_zero, Option.some.injEq] at ha hb
        subst ha
        subst hb
        simp [List.zip_cons_cons]
      | succ j' =>
        simp only [List.getElem?_cons_succ] at ha hb
        simp only [List.zip_cons_cons, List.getElem?_cons_succ]
        exact ih brest j' ha hb

/-! ### getBatch structure lemmas -/

theorem getBatch_ok_inv {ID L F δ : Type} (s : GenState ID L F δ) (ia : List Nat)
    (bx : List (String × BatchVal ID F)) (y : BatchY δ)
    (h : getBatch s ia = .ok (bx, y)) :
    ∃ idsL idsR, getLabels s ia = .ok y ∧
      npSelect s.rel_id_left ia = .ok idsL ∧
      npSelect s.rel_id_right ia = .ok idsR ∧
      bx = buildBatchX s idsL idsR := by
  cases h1 : getLabels s ia with
  | error e => simp [getBatch, h1] at h
  | ok lbls =>
    cases h2 : npSelect s.rel_id_left ia with
    | error e => simp [getBatch, h1, h2] at h
    | ok idsL =>
      cases h3 : npSelect s.rel_id_right ia with
      | error e => simp [getBatch, h1, h2, h3] at h
      | ok idsR =>
        simp only [getBatch, h1, h2, h3, Except.ok.injEq, Prod.mk.injEq] at h
        obtain ⟨hbx, hy⟩ := h
        subst hy
        exact ⟨idsL, idsR, rfl, rfl, rfl, hbx.symm⟩

theorem dictGet_buildBatchX_ids {ID L F δ : Type} (s : GenState ID L F δ)
    (idsL idsR : List ID) (hL : "ids" ∉ s.left_columns) (hR : "ids" ∉ s.right_columns) :
    dictGet (buildBatchX s idsL idsR) "ids" = some (BatchVal.ids (idsL.zip idsR)) := by
  simp only [buildBatchX]
  rw [dictGet_foldl_not_mem _ _ _ _ hR, dictGet_foldl_not_mem _ _ _ _ hL,
    dictGet_dictInsert_self]

theorem dictGet_buildBatchX_right {ID L F δ : Type} (s : GenState ID L F δ)
    (idsL idsR : List ID) (c : String) (hc : c ∈ s.right_columns) :
    dictGet (buildBatchX s idsL idsR) c =
      some (BatchVal.feats (idsR.map (fun i => s.right_loc i c))) := by
  simp only [buildBatchX]
  rw [dictGet_foldl_mem _ _ _ _ hc]

theorem dictNodup_buildBatchX {ID L F δ : Type} (s : GenState ID L F δ)
    (idsL idsR : List ID) : dictNodup (buildBatchX s idsL idsR) := by
  simp only [buildBatchX]
  refine dictNodup_foldl _ _ _ (dictNodup_foldl _ _ _ (dictNodup_dictInsert _ _ _
    (dictNodup_foldl _ _ _ ?_)))
  simp [dictNodup]

/-! ### Vocabulary lemmas -/

theorem dedupFirst_mem (seen v : List String) (a : String) :
    a ∈ dedupFirst seen v ↔ a ∈ v ∧ a ∉ seen := by
  induction v generalizing seen with
  | nil => simp [dedupFirst]
  | cons x rest ih =>
    by_cases hx : x ∈ seen
    · rw [dedupFirst, if_pos hx, ih seen, List.mem_cons]
      constructor
      · rintro ⟨h1, h2⟩
        exact ⟨Or.inr h1, h2⟩
      · rintro ⟨h1 | h1, h2⟩
        · subst h1
          exact absurd hx h2
        · exact ⟨h1, h2⟩
    · rw [dedupFirst, if_neg hx, List.mem_cons, List.mem_cons, ih (x :: seen)]
      constructor
      · rintro (h1 | ⟨h1, h2⟩)
        · subst h1
          exact ⟨Or.inl rfl, hx⟩
        · exact ⟨Or.inr h1, fun hs => h2 (List.mem_cons_of_mem _ hs)⟩
      · rintro ⟨h1 | h1, h2⟩
        · exact Or.inl h1
        · by_cases hax : a = x
          · exact Or.inl hax
          · refine Or.inr ⟨h1, fun hs => ?_⟩
            rcases List.mem_cons.mp hs with h3 | h3
            · exact hax h3
            · exact h2 h3

theorem dedupFirst_nodup (seen v : List String) : (dedupFirst seen v).Nodup := by
  induction v generalizing seen with
  | nil => exact List.nodup_nil
  | cons x rest ih =>
    by_cases hx : x ∈ seen
    · rw [dedupFirst, if_pos hx]
      exact ih seen
    · rw [dedupFirst, if_neg hx]
      refine List.nodup_cons.mpr ⟨fun hmem => ?_, ih (x :: seen)⟩
      exact ((dedupFirst_mem (x :: seen) rest x).mp hmem).2 (List.mem_cons_self _ _)

theorem dedupFirst_length_card (v : List String) :
    (dedupFirst [] v).length = v.toFinset.card := by
  have h1 : (dedupFirst [] v).toFinset = v.toFinset := by
    ext a
    simp [List.mem_toFinset, dedupFirst_mem]
  rw [← h1]
  exact (List.toFinset_card_of_nodup (dedupFirst_nodup [] v)).symm

theorem indexFrom_length (n : Nat) (l : List String) :
    (indexFrom n l).length = l.length := by
  induction l generalizing n with
  | nil => rfl
  | cons x rest ih => simp [indexFrom, ih]

/-! ### Claim theorems -/

/-- C1 (code bug evaluation): at training stage with a Ranking task, the
label component returned for `index_array = [1]` over the two-row
relation with labels `[5, 7]` is `[5, 7]` — the `output_dtype`-mapped
labels of the **entire** relation column — and not the `[7]` the claim
requires (the labels at the rows selected by `index_array`). -/
theorem ranking_labels_whole_column :
    getBatch rankStateC1 [1] =
      .ok ([("text_left", BatchVal.feats [0]), ("text_right", BatchVal.feats [0]),
            ("ids", BatchVal.ids [("q1", "d1")])], BatchY.ranking [5, 7]) ∧
    BatchY.ranking ([5, 7] : List Int) ≠ BatchY.ranking [7] :=
  ⟨rfl, by decide⟩

/-- C2 (counterexample): with a task that is neither Ranking nor
Classification but a stage other than `train`, no error is raised — a
full batch with `None` labels is returned, so the claim's "for every
stage" fails. -/
theorem invalid_task_silent_outside_train :
    getBatch otherTaskTestState [0] =
      .ok ([("text_left", BatchVal.feats [0]), ("text_right", BatchVal.feats [0]),
            ("ids", BatchVal.ids [("q0", "d0")])], BatchY.none) := rfl

/-- C2 (amended): at **training** stage, a task that is neither Ranking
nor Classification makes `_get_batch_of_transformed_samples` raise a
`ValueError` immediately, for every `index_array`; the message contains
the offending task's representation and names the two expected task
kinds, and no batch is returned. -/
theorem invalid_task_raises_at_train {ID L F δ : Type} (s : GenState ID L F δ)
    (ia : List Nat) (rep : String) (hst : s.stage = "train")
    (ht : s.task = .other rep) :
    getBatch s ia =
      .error (rep ++ " is not a valid task type." ++
        ":class:`Ranking` and :class:`Classification` expected.") := by
  simp [getBatch, getLabels, hst, ht]

/-- Witness for C2's amended theorem at a concrete generator state. -/
theorem invalid_task_raises_at_train_witness :
    getBatch otherTaskTrainState [0] =
      .error ("CustomTask()" ++ " is not a valid task type." ++
        ":class:`Ranking` and :class:`Classification` expected.") :=
  invalid_task_raises_at_train otherTaskTrainState [0] "CustomTask()" rfl rfl

/-- C3 (counterexample): fitting on the spec's one-line corpus yields
`input_shapes` equal to `[(20,), (20,)]` — two 1-tuples — where the
unique-token count is 19; the shapes are not of the claimed form
`(unbounded batch dimension, vocabulary size + 1)`. -/
theorem input_shapes_not_pairs :
    (CDSSMfit CDSSMinit corpusBeijing).input_shapes = some [[some 20], [some 20]] ∧
    uniqueTokenCount corpusBeijing = 19 ∧
    (CDSSMfit CDSSMinit corpusBeijing).input_shapes ≠
      some [[none, some 20], [none, some 20]] :=
  ⟨by decide, by decide, by decide⟩

/-- C3 (amended): after `CDSSMPreprocessor.fit`, `input_shapes` is a
pair of shape descriptors, one for the left and one for the right
input, each the 1-tuple `(vocabulary size + 1,)`: its only element is
the number of unique tokens produced by the n-gram pipeline plus 1. -/
theorem input_shapes_singleton_vocab_succ (inputs : List RawInput) :
    ∃ ti, (CDSSMfit CDSSMinit inputs).term_index = some ti ∧
      (CDSSMfit CDSSMinit inputs).input_shapes =
        some [[some (ti.length + 1)], [some (ti.length + 1)]] ∧
      ti.length = uniqueTokenCount inputs := by
  refine ⟨buildTermIndex (vocabOf inputs), rfl, rfl, ?_⟩
  unfold buildTermIndex uniqueTokenCount
  rw [indexFrom_length]
  exact dedupFirst_length_card _

/-- C6: whenever the stage is not `train`, any batch the generator
returns carries `None` as its label component, whatever the task. -/
theorem labels_none_outside_train {ID L F δ : Type} (s : GenState ID L F δ)
    (ia : List Nat) (hst : s.stage ≠ "train")
    (hok : isOkB (getBatch s ia) = true) :
    ∃ bx, getBatch s ia = .ok (bx, BatchY.none) := by
  cases hg : getBatch s ia with
  | error e =>
    rw [hg] at hok
    simp [isOkB] at hok
  | ok res =>
    obtain ⟨bx, y⟩ := res
    obtain ⟨idsL, idsR, hlab, -, -, -⟩ := getBatch_ok_inv s ia bx y hg
    have hnone : getLabels s ia = .ok .none := by
      unfold getLabels
      rw [if_neg hst]
    rw [hnone] at hlab
    injection hlab with hy
    cases hy
    exact ⟨bx, rfl⟩

/-- Witness for C6 at a concrete Classification generator at test
stage. -/
theorem labels_none_outside_train_witness :
    ∃ bx, getBatch predStateW [0] = .ok (bx, BatchY.none) :=
  labels_none_outside_train predStateW [0] (by decide) (by decide)

/-- C7: a second `fit` call rebuilds the context from the second corpus
alone — both keys the method writes are overwritten, so fitting `c1`
then `c2` leaves exactly the context that fitting `c2` alone leaves,
and `term_index` is the vocabulary of `c2` only. -/
theorem fit_twice_overwrites_context (c1 c2 : List RawInput) :
    CDSSMfit (CDSSMfit CDSSMinit c1) c2 = CDSSMfit CDSSMinit c2 ∧
    (CDSSMfit (CDSSMfit CDSSMinit c1) c2).term_index =
      some (buildTermIndex (vocabOf c2)) :=
  ⟨rfl, rfl⟩

/-- C8: `CDSSMPreprocessor.transform` is a stub (`pass`): for every
input corpus and stage it returns `None` and leaves the fitted context
exactly as it was. -/
theorem transform_stub_returns_none (s : CDSSMContext) (inputs : List RawInput)
    (stage : String) : CDSSMtransform s inputs stage = (none, s) := rfl

/-- C4: at training stage with a Classification task of `C` classes,
valid indices and in-range integer labels, the label matrix has one row
per selected index, every row has length `C` and sums to exactly 1, and
row `j` is the one-hot row with its 1 at the column given by the
converted label of relation row `index_array[j]`. -/
theorem classification_one_hot_correct {ID L F δ : Type} (s : GenState ID L F δ)
    (ia : List Nat) (C : Nat) (f : L → Int)
    (hst : s.stage = "train") (ht : s.task = .classification C f)
    (hlab : ∀ i ∈ ia, i < s.rel_label.length)
    (hleft : ∀ i ∈ ia, i < s.rel_id_left.length)
    (hright : ∀ i ∈ ia, i < s.rel_id_right.length)
    (hrange : ∀ l ∈ s.rel_label, 0 ≤ f l ∧ f l < (C : Int)) :
    ∃ bx m, getBatch s ia = .ok (bx, BatchY.classification m) ∧
      m.length = ia.length ∧
      (∀ row ∈ m, row.length = C ∧ row.sum = 1) ∧
      (∀ (j i : Nat), ia[j]? = some i → ∀ l, s.rel_label[i]? = some l →
        m[j]? = some ((List.replicate C 0).set (f l).toNat 1)) := by
  obtain ⟨ls, hls⟩ := npSelect_ok_of_lt s.rel_label ia hlab
  have hOH : buildOneHot C (ls.map f) =
      .ok ((ls.map f).map (fun x => (List.replicate C 0).set x.toNat 1)) := by
    apply buildOneHot_eq_ok
    intro x hx
    obtain ⟨l, hl, hxl⟩ := List.mem_map.mp hx
    subst hxl
    obtain ⟨h0, h1⟩ := hrange l (npSelect_mem _ _ _ hls l hl)
    exact oneHotWrite_of_nonneg C (f l) h0 h1
  have hlabels : getLabels s ia =
      .ok (.classification ((ls.map f).map (fun x => (List.replicate C 0).set x.toNat 1))) := by
    simp [getLabels, hst, ht, hls, hOH]
  obtain ⟨idsL, hL⟩ := npSelect_ok_of_lt s.rel_id_left ia hleft
  obtain ⟨idsR, hR⟩ := npSelect_ok_of_lt s.rel_id_right ia hright
  refine ⟨buildBatchX s idsL idsR,
    (ls.map f).map (fun x => (List.replicate C 0).set x.toNat 1), ?_, ?_, ?_, ?_⟩
  · simp [getBatch, hlabels, hL, hR]
  · rw [List.length_map, List.length_map]
    exact npSelect_length _ _ _ hls
  · intro row hrow
    obtain ⟨x, hx, hxe⟩ := List.mem_map.mp hrow
    obtain ⟨l, hl, hlf⟩ := List.mem_map.mp hx
    subst hxe
    subst hlf
    obtain ⟨h0, h1⟩ := hrange l (npSelect_mem _ _ _ hls l hl)
    constructor
    · simp
    · exact sum_replicate_set C (f l).toNat (by omega)
  · intro j i hji l hil
    have hm : ls[j]? = s.rel_label[i]? := npSelect_getElem? _ _ _ hls j i hji
    rw [hil] at hm
    simp [hm]

/-- Witness for C4 at a concrete two-row Classification generator. -/
theorem classification_one_hot_correct_witness :
    ∃ bx m, getBatch clsStateW [0, 1] = .ok (bx, BatchY.classification m) ∧
      m.length = ([0, 1] : List Nat).length ∧
      (∀ row ∈ m, row.length = 2 ∧ row.sum = 1) ∧
      (∀ (j i : Nat), ([0, 1] : List Nat)[j]? = some i →
        ∀ l, clsStateW.rel_label[i]? = some l →
          m[j]? = some ((List.replicate 2 0).set l.toNat 1)) :=
  classification_one_hot_correct clsStateW [0, 1] 2 (fun x => x) rfl rfl
    (by decide) (by decide) (by decide) (by decide)

/-- C5: whenever a batch is produced and neither side table declares a
column named `"ids"`, the batch's `"ids"` entry has one pair per
selected index, the `j`-th pair being the `(id_left, id_right)` of
relation row `index_array[j]`. -/
theorem batch_ids_column {ID L F δ : Type} (s : GenState ID L F δ) (ia : List Nat)
    (hL : "ids" ∉ s.left_columns) (hR : "ids" ∉ s.right_columns)
    (hok : isOkB (getBatch s ia) = true) :
    ∃ bx y pairs, getBatch s ia = .ok (bx, y) ∧
      dictGet bx "ids" = some (BatchVal.ids pairs) ∧
      pairs.length = ia.length ∧
      (∀ (j i : Nat), ia[j]? = some i → ∃ a b,
        s.rel_id_left[i]? = some a ∧ s.rel_id_right[i]? = some b ∧
        pairs[j]? = some (a, b)) := by
  cases hg : getBatch s ia with
  | error e =>
    rw [hg] at hok
    simp [isOkB] at hok
  | ok res =>
    obtain ⟨bx, y⟩ := res
    obtain ⟨idsL, idsR, hlab, h2, h3, hbx⟩ := getBatch_ok_inv s ia bx y hg
    subst hbx
    refine ⟨_, y, idsL.zip idsR, rfl, dictGet_buildBatchX_ids s idsL idsR hL hR, ?_, ?_⟩
    · rw [List.length_zip, npSelect_length _ _ _ h2, npSelect_length _ _ _ h3,
        Nat.min_self]
    · intro j i hji
      have hjlt : j < ia.length := (List.getElem?_eq_some.mp hji).1
      have hjL : j < idsL.length := by
        rw [npSelect_length _ _ _ h2]
        exact hjlt
      have hjR : j < idsR.length := by
        rw [npSelect_length _ _ _ h3]
        exact hjlt
      have haL : idsL[j]? = some idsL[j] := List.getElem?_eq_getElem hjL
      have haR : idsR[j]? = some idsR[j] := List.getElem?_eq_getElem hjR
      refine ⟨idsL[j], idsR[j], ?_, ?_, zip_getElem?_some idsL idsR j _ _ haL haR⟩
      · rw [← npSelect_getElem? _ _ _ h2 j i hji]
        exact haL
      · rw [← npSelect_getElem? _ _ _ h3 j i hji]
        exact haR

/-- Witness for C5 at a concrete two-row generator with the reversed
index array `[1, 0]`. -/
theorem batch_ids_column_witness :
    ∃ bx y pairs, getBatch idsStateW [1, 0] = .ok (bx, y) ∧
      dictGet bx "ids" = some (BatchVal.ids pairs) ∧
      pairs.length = ([1, 0] : List Nat).length ∧
      (∀ (j i : Nat), ([1, 0] : List Nat)[j]? = some i → ∃ a b,
        idsStateW.rel_id_left[i]? = some a ∧ idsStateW.rel_id_right[i]? = some b ∧
        pairs[j]? = some (a, b)) :=
  batch_ids_column idsStateW [1, 0] (by decide) (by decide) (by decide)

/-- C9: at training stage with a Classification task of `C` classes, a
relation whose converted labels all equal the out-of-range negative
integer `-k` with `1 ≤ k ≤ C` is not rejected: the batch is produced
without error and every one-hot row has its 1 wrapped around to column
`C - k`. -/
theorem negative_label_wraps {ID L F δ : Type} (s : GenState ID L F δ) (ia : List Nat)
    (C k : Nat) (f : L → Int)
    (hst : s.stage = "train") (ht : s.task = .classification C f)
    (hk1 : 1 ≤ k) (hk2 : k ≤ C)
    (hlab : ∀ i ∈ ia, i < s.rel_label.length)
    (hleft : ∀ i ∈ ia, i < s.rel_id_left.length)
    (hright : ∀ i ∈ ia, i < s.rel_id_right.length)
    (hneg : ∀ l ∈ s.rel_label, f l = -(k : Int)) :
    ∃ bx m, getBatch s ia = .ok (bx, BatchY.classification m) ∧
      m.length = ia.length ∧
      (∀ row ∈ m, row = (List.replicate C 0).set (C - k) 1) := by
  obtain ⟨ls, hls⟩ := npSelect_ok_of_lt s.rel_label ia hlab
  have hkk : ((-(-(k : Int))).toNat) = k := by simp
  have hOH : buildOneHot C (ls.map f) =
      .ok ((ls.map f).map (fun x => (List.replicate C 0).set (C - (-x).toNat) 1)) := by
    apply buildOneHot_eq_ok
    intro x hx
    obtain ⟨l, hl, hxl⟩ := List.mem_map.mp hx
    subst hxl
    rw [hneg l (npSelect_mem _ _ _ hls l hl)]
    exact oneHotWrite_of_neg C (-(k : Int)) (by omega) (by omega)
  have hlabels : getLabels s ia =
      .ok (.classification
        ((ls.map f).map (fun x => (List.replicate C 0).set (C - (-x).toNat) 1))) := by
    simp [getLabels, hst, ht, hls, hOH]
  obtain ⟨idsL, hL⟩ := npSelect_ok_of_lt s.rel_id_left ia hleft
  obtain ⟨idsR, hR⟩ := npSelect_ok_of_lt s.rel_id_right ia hright
  refine ⟨buildBatchX s idsL idsR,
    (ls.map f).map (fun x => (List.replicate C 0).set (C - (-x).toNat) 1), ?_, ?_, ?_⟩
  · simp [getBatch, hlabels, hL, hR]
  · rw [List.length_map, List.length_map]
    exact npSelect_length _ _ _ hls
  · intro row hrow
    obtain ⟨x, hx, hxe⟩ := List.mem_map.mp hrow
    obtain ⟨l, hl, hlf⟩ := List.mem_map.mp hx
    subst hxe
    subst hlf
    rw [hneg l (npSelect_mem _ _ _ hls l hl), hkk]

/-- Witness for C9: three classes, label `-2`, the 1 lands at column
`3 - 2 = 1` with no error. -/
theorem negative_label_wraps_witness :
    ∃ bx m, getBatch negStateW [0] = .ok (bx, BatchY.classification m) ∧
      m.length = ([0] : List Nat).length ∧
      (∀ row ∈ m, row = (List.replicate 3 0).set (3 - 2) 1) :=
  negative_label_wraps negStateW [0] 3 2 (fun x => x) rfl rfl (by decide) (by decide)
    (by decide) (by decide) (by decide) (by decide)

/-- C10: when the left and right side tables declare a feature column
of the same name, any produced batch holds exactly one entry under that
name and its values are the ones looked up from the **right** side
table at the selected right ids. -/
theorem duplicate_column_right_overwrites {ID L F δ : Type} (s : GenState ID L F δ)
    (ia : List Nat) (c : String)
    (_hcl : c ∈ s.left_columns) (hcr : c ∈ s.right_columns)
    (hok : isOkB (getBatch s ia) = true) :
    ∃ bx y idsR, getBatch s ia = .ok (bx, y) ∧
      npSelect s.rel_id_right ia = .ok idsR ∧
      dictGet bx c = some (BatchVal.feats (idsR.map (fun i => s.right_loc i c))) ∧
      countKey bx c = 1 := by
  cases hg : getBatch s ia with
  | error e =>
    rw [hg] at hok
    simp [isOkB] at hok
  | ok res =>
    obtain ⟨bx, y⟩ := res
    obtain ⟨idsL, idsR, hlab, h2, h3, hbx⟩ := getBatch_ok_inv s ia bx y hg
    subst hbx
    exact ⟨_, y, idsR, rfl, h3, dictGet_buildBatchX_right s idsL idsR c hcr,
      countKey_eq_one_of_dictGet _ _ _ (dictNodup_buildBatchX s idsL idsR)
        (dictGet_buildBatchX_right s idsL idsR c hcr)⟩

/-- Witness for C10 at a generator whose two side tables both declare a
column `"text"`; the surviving values are the right table's (value 2),
not the left table's (value 1). -/
theorem duplicate_column_right_overwrites_witness :
    ∃ bx y idsR, getBatch dupStateW [0] = .ok (bx, y) ∧
      npSelect dupStateW.rel_id_right [0] = .ok idsR ∧
      dictGet bx "text" =
        some (BatchVal.feats (idsR.map (fun i => dupStateW.right_loc i "text"))) ∧
      countKey bx "text" = 1 :=
  duplicate_column_right_overwrites dupStateW [0] "text" (by decide) (by decide)
    (by decide)

end MatchZoo
